import Mathlib

set_option maxHeartbeats 1000000

/-!
Verification model of the `ybouhjira/claude-code-tts` repository.

The definitions below are a shallow embedding of the Go sources:
`internal/server/worker.go` (Job, WorkerPool, Submit, processJob, GetStatus),
`internal/audio/player.go` (Player, Play, IsPlaying),
`internal/server/server.go` (handleSpeak) and `internal/tts` (IsValidVoice).

Go pointers to `Job` records are modeled as indices ("pointers") into an
explicit heap `heap : List Job`; the job channel, the job-history ledger and
the set of jobs currently held by worker goroutines hold such pointers, so
aliasing between the queue, the ledger and a worker's job reference is
represented faithfully.  `time.Now().UnixNano()` is an explicit `now : Nat`
argument.  The external synthesis gateway and platform player are injected
oracles, as in the source where they are separate components.
-/

/-- A TTS job record (`Job` in worker.go).  `status` takes the Go string
literals "pending", "processing", "completed", "failed"; `error` is the
`Error` field. -/
structure Job where
  id : String
  text : String
  voice : String
  createdAt : Nat
  status : String
  error : String
deriving Repr, DecidableEq, Inhabited

/-- The audio player's observable state (`Player` in player.go): the
`isPlaying` flag guarded by its mutex.  The mutex itself is modeled in the
lock-shape section below. -/
structure Player where
  isPlaying : Bool
deriving Repr, DecidableEq, Inhabited

/-- `NewPlayer` in player.go: flag initially false. -/
def NewPlayer : Player := { isPlaying := false }

/-- `Player.IsPlaying` in player.go: reads the flag (under the mutex). -/
def Player.IsPlaying (p : Player) : Bool := p.isPlaying

/-- The worker-pool state (`WorkerPool` in worker.go).  `heap` is the set of
all `Job` records ever allocated (a pointer is an index into it); `jobs` is
the buffered channel's current contents, front = next to be received;
`jobHistory` is the ledger of pointers; `inFlight` models the pointers
currently held by worker goroutines between channel receive and the end of
`processJob`. -/
structure WorkerPool where
  heap : List Job
  jobs : List Nat
  jobHistory : List Nat
  inFlight : List Nat
  audioPlayer : Player
  workerCount : Nat
  queueSize : Nat
  processed : Nat
  failed : Nat
deriving Repr, DecidableEq

/-- `NewWorkerPool(workerCount, queueSize)` in worker.go. -/
def NewWorkerPool (workerCount queueSize : Nat) : WorkerPool :=
  { heap := [], jobs := [], jobHistory := [], inFlight := []
    audioPlayer := NewPlayer
    workerCount := workerCount, queueSize := queueSize
    processed := 0, failed := 0 }

/-- Dereference a job pointer. -/
def getJob (wp : WorkerPool) (p : Nat) : Job := wp.heap.getD p default

/-- Write `job.Status` and `job.Error` through a pointer. -/
def setJob (wp : WorkerPool) (p : Nat) (st er : String) : WorkerPool :=
  { wp with heap := wp.heap.set p { getJob wp p with status := st, error := er } }

/-- Write `job.Status` through a pointer (leaving `Error` unchanged). -/
def setJobStatus (wp : WorkerPool) (p : Nat) (st : String) : WorkerPool :=
  { wp with heap := wp.heap.set p { getJob wp p with status := st } }

/-- The job id `fmt.Sprintf("job-%d", time.Now().UnixNano())` built in
`Submit`. -/
def jobIdOf (now : Nat) : String := "job-" ++ Nat.repr now

/-- Result of `Submit`: the new pool state, the returned `*Job` (a pointer),
and the returned `error` (`none` for Go `nil`). -/
structure SubmitResult where
  wp : WorkerPool
  jobPtr : Nat
  err : Option String
deriving Repr, DecidableEq

/-- `WorkerPool.Submit(text, voice)` in worker.go.  Allocates the record with
status "pending", appends it to the ledger, evicts the oldest ledger entry if
the length exceeds 100, then attempts a non-blocking channel send: it succeeds
iff the buffer has a free slot (`len < cap`); otherwise the job's status is
set to "failed" with error "queue is full" and a queue-full error is
returned. -/
def Submit (wp : WorkerPool) (text voice : String) (now : Nat) : SubmitResult :=
  let job : Job :=
    { id := jobIdOf now, text := text, voice := voice, createdAt := now
      status := "pending", error := "" }
  let p := wp.heap.length
  let hist1 := wp.jobHistory ++ [p]
  let wp1 : WorkerPool :=
    { wp with heap := wp.heap ++ [job]
              jobHistory := if hist1.length > 100 then hist1.tail else hist1 }
  if wp1.jobs.length < wp1.queueSize then
    { wp := { wp1 with jobs := wp1.jobs ++ [p] }, jobPtr := p, err := none }
  else
    { wp := setJob wp1 p "failed" "queue is full", jobPtr := p
      err := some ("job queue is full (size: " ++ Nat.repr wp.queueSize ++ ")") }

/-- The tail of `processJob` after the initial `job.Status = "processing"`
write: synthesis, then playback, then the terminal status write and counter
update (worker.go lines 91-111).  `synthesize` is the injected
`tts.Client.Synthesize` and `play` the injected `audio.Player.Play` outcome
(`none` = nil error). -/
def finishJob (wp : WorkerPool) (p : Nat)
    (synthesize : String → String → Except String (List Nat))
    (play : List Nat → Option String) : WorkerPool :=
  let job := getJob wp p
  match synthesize job.text job.voice with
  | .error e => { setJob wp p "failed" e with failed := wp.failed + 1 }
  | .ok audioData =>
    match play audioData with
    | some e => { setJob wp p "failed" e with failed := wp.failed + 1 }
    | none => { setJobStatus wp p "completed" with processed := wp.processed + 1 }

/-- `WorkerPool.processJob(job)` in worker.go: set status "processing", then
synthesize; on error set status "failed"/error text and bump `failed`;
otherwise play; on error set status "failed"/error text and bump `failed`;
otherwise set status "completed" and bump `processed`. -/
def processJob (wp : WorkerPool) (p : Nat)
    (synthesize : String → String → Except String (List Nat))
    (play : List Nat → Option String) : WorkerPool :=
  finishJob (setJobStatus wp p "processing") p synthesize play

/-- The status snapshot (`PoolStatus` in worker.go).  `recentJobs` holds the
`*Job` pointers that worker.go's `GetStatus` puts in `RecentJobs` (that
version copies the slice of pointers, not the records). -/
structure PoolStatus where
  workerCount : Nat
  queueSize : Nat
  queuePending : Nat
  totalProcessed : Nat
  totalFailed : Nat
  isPlaying : Bool
  recentJobs : List Nat
deriving Repr, DecidableEq

/-- `WorkerPool.GetStatus()` in worker.go: `start := len(history) - 10`
clamped at 0, `recentJobs = jobHistory[start:]` (pointers into the ledger),
plus the counters and the player flag. -/
def GetStatus (wp : WorkerPool) : PoolStatus :=
  { workerCount := wp.workerCount
    queueSize := wp.queueSize
    queuePending := wp.jobs.length
    totalProcessed := wp.processed
    totalFailed := wp.failed
    isPlaying := wp.audioPlayer.IsPlaying
    recentJobs := wp.jobHistory.drop (wp.jobHistory.length - 10) }

/-!
### audio/player.go: `Play` and the player's lock shape
-/

/-- The environment a single `Play` call runs against (player.go lines
32-75): whether `os.CreateTemp` and the write fail, `runtime.GOOS`, which
Linux player binaries `exec.LookPath` finds, and the `cmd.Run()` outcome.
Error fields are `none` for Go `nil`. -/
structure PlayEnv where
  goos : String
  tempFileErr : Option String
  writeErr : Option String
  mpvFound : Bool
  ffplayFound : Bool
  aplayFound : Bool
  mpg123Found : Bool
  runErr : Option String
deriving Repr, DecidableEq

/-- Outcome of `cmd.Run()` as surfaced by `Play` (player.go lines 73-75). -/
def runOutcome (env : PlayEnv) : Option String :=
  env.runErr.map (fun e => "audio playback failed: " ++ e)

/-- The body of `Play` after the `isPlaying` flag has been set (player.go
lines 31-77): temp-file creation, write, platform dispatch, player run.
Returns the Go error (`none` = nil). -/
def playBody (env : PlayEnv) : Option String :=
  match env.tempFileErr with
  | some e => some ("failed to create temp file: " ++ e)
  | none =>
    match env.writeErr with
    | some e => some ("failed to write audio data: " ++ e)
    | none =>
      if env.goos = "darwin" then runOutcome env
      else if env.goos = "linux" then
        if env.mpvFound then runOutcome env
        else if env.ffplayFound then runOutcome env
        else if env.aplayFound then
          if env.mpg123Found then runOutcome env
          else some "no suitable audio player found on Linux (install mpv, ffplay, or mpg123)"
        else some "no suitable audio player found on Linux (install mpv, ffplay, or mpg123)"
      else if env.goos = "windows" then runOutcome env
      else some ("unsupported platform: " ++ env.goos)

/-- What one `Play` call does to the player state: `during` is the state in
which the whole body runs (flag set true at entry, player.go line 28), `final`
the state after the deferred `p.isPlaying = false` (line 29) has run — on
every return path, since it is deferred — and `err` the returned error. -/
structure PlayOutcome where
  during : Player
  final : Player
  err : Option String
deriving Repr, DecidableEq

/-- `Player.Play(audioData)` in player.go, as a state transformer plus the
intermediate state observable while the body runs. -/
def Play (env : PlayEnv) (p : Player) : PlayOutcome :=
  let during : Player := { p with isPlaying := true }
  { during := during
    final := { during with isPlaying := false }
    err := playBody env }

/-- The one lock in audio/player.go: `Player.mu`. -/
inductive LockId where
  | playerMu
deriving Repr, DecidableEq

/-- Locks `Play` acquires at entry and holds until return (player.go lines
25-26: `p.mu.Lock(); defer p.mu.Unlock()`), i.e. for the whole duration of a
playback. -/
def playHeldLocks : List LockId := [LockId.playerMu]

/-- Locks `IsPlaying` must acquire before it can return (player.go lines
82-83: `p.mu.Lock(); defer p.mu.Unlock()`). -/
def isPlayingAcquiredLocks : List LockId := [LockId.playerMu]

/-- A call that must acquire the locks `acquired` waits behind a thread
holding the locks `held` iff the two sets intersect. -/
def mustWaitFor (acquired held : List LockId) : Bool :=
  acquired.any (fun l => held.contains l)

/-!
### internal/tts voices and server.go `handleSpeak`
-/

/-- `tts.ValidVoices()` (client.go in internal/tts). -/
def ValidVoices : List String :=
  ["alloy", "echo", "fable", "onyx", "nova", "shimmer"]

/-- `tts.IsValidVoice(v)`: linear scan comparing each valid voice with `v`. -/
def IsValidVoice (v : String) : Bool :=
  ValidVoices.any (fun valid => valid == v)

/-- A JSON-decoded argument value as Go's `interface{}` holds it; the Go type
assertion `.(string)` succeeds only on `str`. -/
inductive JsonValue where
  | str (s : String)
  | num (n : Int)
  | boolean (b : Bool)
  | null
  | arr
  | obj
deriving Repr, DecidableEq

/-- Lookup in the `request.Params.Arguments` map (modeled as an association
list; `none` = key absent). -/
def lookupArg (args : List (String × JsonValue)) (key : String) : Option JsonValue :=
  (args.find? (fun kv => kv.fst == key)).map (fun kv => kv.snd)

/-- Go's `v.(string)` type assertion on an optional argument: the string when
the value exists and is a string, otherwise failure. -/
def asString : Option JsonValue → Option String
  | some (JsonValue.str s) => some s
  | _ => none

/-- An MCP tool result: `mcp.NewToolResultText` or `mcp.NewToolResultError`. -/
inductive ToolResult where
  | text (msg : String)
  | error (msg : String)
deriving Repr, DecidableEq

/-- `Server.handleSpeak` in server.go: extract and validate `text` (present,
string, non-empty, at most 4096 bytes), resolve `voice` (string and non-empty,
else "alloy"), validate the voice, then `Submit` to the worker pool; a
submission error is reported as an error result (the job was still created).
Returns the tool result and the pool state after the call. -/
def handleSpeak (wp : WorkerPool) (args : List (String × JsonValue)) (now : Nat) :
    ToolResult × WorkerPool :=
  match asString (lookupArg args "text") with
  | none => (ToolResult.error "text parameter is required", wp)
  | some text =>
    if text = "" then (ToolResult.error "text parameter is required", wp)
    else if text.utf8ByteSize > 4096 then
      (ToolResult.error "text exceeds maximum length of 4096 characters", wp)
    else
      let voice :=
        match asString (lookupArg args "voice") with
        | some v => if v ≠ "" then v else "alloy"
        | none => "alloy"
      if ¬ IsValidVoice voice then
        (ToolResult.error ("invalid voice '" ++ voice ++
          "'. Valid voices: alloy, echo, fable, onyx, nova, shimmer"), wp)
      else
        let r := Submit wp text voice now
        match r.err with
        | some e => (ToolResult.error ("failed to queue TTS job: " ++ e), r.wp)
        | none =>
          (ToolResult.text ("TTS job queued successfully (ID: " ++
            (getJob r.wp r.jobPtr).id ++ ", voice: " ++ voice ++ ")"), r.wp)

/-!
### The scheduler's step relation and its invariants
-/

/-- The four status strings a record may carry. -/
def validStatuses : List String := ["pending", "processing", "completed", "failed"]

/-- A status is terminal when it is "completed" or "failed". -/
def isTerminal (st : String) : Bool := st = "completed" || st = "failed"

/-- The legal status transitions of a record (spec section 4.1's state
machine): pending→processing on dequeue, processing→completed /
processing→failed after the synthesis+playback attempt, pending→failed on
queue-full rejection. -/
def StatusEdge (old new : String) : Prop :=
  (old = "pending" ∧ new = "processing") ∨
  (old = "processing" ∧ new = "completed") ∨
  (old = "processing" ∧ new = "failed") ∨
  (old = "pending" ∧ new = "failed")

/-- Effect of a worker receiving job `p` from the channel (leaving `rest`
buffered) and executing the first line of `processJob`: the job's status
becomes "processing" and the worker now holds the job. -/
def dequeueStep (wp : WorkerPool) (p : Nat) (rest : List Nat) : WorkerPool :=
  { setJobStatus wp p "processing" with jobs := rest, inFlight := wp.inFlight ++ [p] }

/-- Effect of a worker finishing `processJob` on the job `p` it holds: the
remainder of `processJob` runs (synthesis, playback, terminal status write,
counter update) and the worker releases the job. -/
def finishStep (wp : WorkerPool) (p : Nat)
    (synthesize : String → String → Except String (List Nat))
    (play : List Nat → Option String) : WorkerPool :=
  { finishJob wp p synthesize play with inFlight := wp.inFlight.erase p }

/-- One observable step of the system: a `Submit` call, a worker dequeuing a
job from the channel (which runs processJob's first line, the "processing"
status write), or a worker finishing `processJob` on a job it holds, with any
outcome the injected synthesizer and player can produce. -/
inductive Step : WorkerPool → WorkerPool → Prop where
  | submit (wp : WorkerPool) (text voice : String) (now : Nat) :
      Step wp (Submit wp text voice now).wp
  | dequeue (wp : WorkerPool) (p : Nat) (rest : List Nat) (h : wp.jobs = p :: rest) :
      Step wp (dequeueStep wp p rest)
  | finish (wp : WorkerPool) (p : Nat)
      (synthesize : String → String → Except String (List Nat))
      (play : List Nat → Option String) (h : p ∈ wp.inFlight) :
      Step wp (finishStep wp p synthesize play)

/-- States reachable from a freshly constructed pool. -/
def Reachable (workerCount queueSize : Nat) (wp : WorkerPool) : Prop :=
  Relation.ReflTransGen Step (NewWorkerPool workerCount queueSize) wp

/-- The structural invariant the step relation preserves: every pointer in
the channel, in flight or in the ledger is allocated; queued jobs are
"pending"; in-flight jobs are "processing"; no pointer is queued or in flight
twice; and every allocated record carries one of the four statuses. -/
def WF (wp : WorkerPool) : Prop :=
  (∀ p ∈ wp.jobs, p < wp.heap.length ∧ (getJob wp p).status = "pending") ∧
  (∀ p ∈ wp.inFlight, p < wp.heap.length ∧ (getJob wp p).status = "processing") ∧
  (wp.jobs ++ wp.inFlight).Nodup ∧
  (∀ p, p < wp.heap.length → (getJob wp p).status ∈ validStatuses)

/-- A sequence of `Submit` calls; each entry carries (text, voice, now). -/
def submitAll (wp : WorkerPool) (calls : List (String × String × Nat)) : WorkerPool :=
  calls.foldl (fun w c => (Submit w c.1 c.2.1 c.2.2).wp) wp

/-- Big-endian decimal digit characters of `n` (the value
`Nat.toDigitsCore` computes for positive `n`). -/
def decDigits (n : Nat) : List Char := ((Nat.digits 10 n).map Nat.digitChar).reverse

/-!
### Basic lemmas about the heap operations
-/

theorem setJob_heap_length (wp : WorkerPool) (p : Nat) (st er : String) :
    (setJob wp p st er).heap.length = wp.heap.length := by
  simp [setJob]

theorem setJobStatus_heap_length (wp : WorkerPool) (p : Nat) (st : String) :
    (setJobStatus wp p st).heap.length = wp.heap.length := by
  simp [setJobStatus]

theorem getJob_setJob_self (wp : WorkerPool) (p : Nat) (st er : String)
    (hp : p < wp.heap.length) :
    getJob (setJob wp p st er) p = { getJob wp p with status := st, error := er } := by
  simp [getJob, setJob, List.getD_eq_getElem?_getD, List.getElem?_set_self, hp]

theorem getJob_setJob_ne (wp : WorkerPool) (p q : Nat) (st er : String) (h : p ≠ q) :
    getJob (setJob wp p st er) q = getJob wp q := by
  simp [getJob, setJob, List.getD_eq_getElem?_getD, List.getElem?_set_ne h]

theorem getJob_setJobStatus_self (wp : WorkerPool) (p : Nat) (st : String)
    (hp : p < wp.heap.length) :
    getJob (setJobStatus wp p st) p = { getJob wp p with status := st } := by
  simp [getJob, setJobStatus, List.getD_eq_getElem?_getD, List.getElem?_set_self, hp]

theorem getJob_setJobStatus_ne (wp : WorkerPool) (p q : Nat) (st : String) (h : p ≠ q) :
    getJob (setJobStatus wp p st) q = getJob wp q := by
  simp [getJob, setJobStatus, List.getD_eq_getElem?_getD, List.getElem?_set_ne h]

/-- Ledger update of `Submit` when the cap is not yet reached; the branch on
the queue does not matter. -/
theorem Submit_wp_jobHistory_small (wp : WorkerPool) (text voice : String) (now : Nat)
    (h : wp.jobHistory.length < 100) :
    (Submit wp text voice now).wp.jobHistory = wp.jobHistory ++ [wp.heap.length] := by
  simp only [Submit]
  have h1 : ¬ ((wp.jobHistory ++ [wp.heap.length]).length > 100) := by simp; omega
  split <;> simp [setJob, h1]

/-- Ledger update of `Submit` at the cap: the oldest entry is evicted. -/
theorem Submit_wp_jobHistory_big (wp : WorkerPool) (text voice : String) (now : Nat)
    (h : 100 ≤ wp.jobHistory.length) :
    (Submit wp text voice now).wp.jobHistory = (wp.jobHistory ++ [wp.heap.length]).tail := by
  simp only [Submit]
  have h1 : ((wp.jobHistory ++ [wp.heap.length]).length > 100) := by simp; omega
  split <;> simp [setJob, h1]

theorem Submit_wp_heap_length (wp : WorkerPool) (text voice : String) (now : Nat) :
    (Submit wp text voice now).wp.heap.length = wp.heap.length + 1 := by
  simp only [Submit]
  split <;> simp [setJob, getJob]

theorem Submit_jobPtr (wp : WorkerPool) (text voice : String) (now : Nat) :
    (Submit wp text voice now).jobPtr = wp.heap.length := by
  simp only [Submit]
  split <;> rfl

/-!
### C1: queue-full submissions
-/

/-- C1: when the bounded queue is full, `Submit` still creates and returns the
job record together with a queue-full error, without enqueuing: the returned
record has status "failed" and errorMessage "queue is full", it carries the
freshly assigned id, it is present in the ledger (which was appended to before
the enqueue attempt), and the queue is unchanged. -/
theorem submit_queue_full_spec (wp : WorkerPool) (text voice : String) (now : Nat)
    (hfull : wp.queueSize ≤ wp.jobs.length) :
    (Submit wp text voice now).err =
      some ("job queue is full (size: " ++ Nat.repr wp.queueSize ++ ")") ∧
    (getJob (Submit wp text voice now).wp (Submit wp text voice now).jobPtr).status
      = "failed" ∧
    (getJob (Submit wp text voice now).wp (Submit wp text voice now).jobPtr).error
      = "queue is full" ∧
    (getJob (Submit wp text voice now).wp (Submit wp text voice now).jobPtr).id
      = jobIdOf now ∧
    (Submit wp text voice now).jobPtr ∈ (Submit wp text voice now).wp.jobHistory ∧
    (Submit wp text voice now).wp.jobs = wp.jobs := by
  have hcond : ¬ (wp.jobs.length < wp.queueSize) := by omega
  simp only [Submit]
  split
  · omega
  · refine ⟨rfl, ?_, ?_, ?_, ?_, ?_⟩
    · simp [setJob, getJob, List.getD_eq_getElem?_getD, List.getElem?_set_self]
    · simp [setJob, getJob, List.getD_eq_getElem?_getD, List.getElem?_set_self]
    · simp [setJob, getJob, List.getD_eq_getElem?_getD, List.getElem?_set_self]
    · simp only [setJob]
      split
      · rcases h : wp.jobHistory with _ | ⟨a, t⟩
        · simp [h] at *
        · simp
      · simp
    · simp [setJob]

/-- Witness for C1 at a concrete full pool: capacity 1, one job already
queued. -/
theorem submit_queue_full_spec_witness :
    ((Submit (NewWorkerPool 1 1) "a" "alloy" 0).wp.queueSize
        ≤ (Submit (NewWorkerPool 1 1) "a" "alloy" 0).wp.jobs.length) ∧
    ((Submit ((Submit (NewWorkerPool 1 1) "a" "alloy" 0).wp) "b" "echo" 1).err =
        some ("job queue is full (size: " ++ Nat.repr 1 ++ ")") ∧
      (getJob (Submit ((Submit (NewWorkerPool 1 1) "a" "alloy" 0).wp) "b" "echo" 1).wp
          (Submit ((Submit (NewWorkerPool 1 1) "a" "alloy" 0).wp) "b" "echo" 1).jobPtr).status
        = "failed") :=
  ⟨by decide,
    by
      have h := submit_queue_full_spec ((Submit (NewWorkerPool 1 1) "a" "alloy" 0).wp)
        "b" "echo" 1 (by decide)
      exact ⟨h.1, h.2.1⟩⟩

/-!
### C2: processJob outcomes and counters
-/

theorem getJob_bumpFailed (wp : WorkerPool) (p : Nat) (n : Nat) :
    getJob { wp with failed := n } p = getJob wp p := rfl

theorem getJob_bumpProcessed (wp : WorkerPool) (p : Nat) (n : Nat) :
    getJob { wp with processed := n } p = getJob wp p := rfl

/-- `processJob` when synthesis reports an error. -/
theorem processJob_eq_synthFail (wp : WorkerPool) (p : Nat)
    (synthesize : String → String → Except String (List Nat))
    (play : List Nat → Option String) (e : String) (hp : p < wp.heap.length)
    (he : synthesize (getJob wp p).text (getJob wp p).voice = Except.error e) :
    processJob wp p synthesize play
      = { setJob (setJobStatus wp p "processing") p "failed" e with
            failed := wp.failed + 1 } := by
  have hget : getJob (setJobStatus wp p "processing") p
      = { getJob wp p with status := "processing" } :=
    getJob_setJobStatus_self wp p "processing" hp
  simp only [processJob, finishJob, hget, he]
  rfl

/-- `processJob` when synthesis succeeds and playback reports an error. -/
theorem processJob_eq_playFail (wp : WorkerPool) (p : Nat)
    (synthesize : String → String → Except String (List Nat))
    (play : List Nat → Option String) (a : List Nat) (e : String) (hp : p < wp.heap.length)
    (ha : synthesize (getJob wp p).text (getJob wp p).voice = Except.ok a)
    (he : play a = some e) :
    processJob wp p synthesize play
      = { setJob (setJobStatus wp p "processing") p "failed" e with
            failed := wp.failed + 1 } := by
  have hget : getJob (setJobStatus wp p "processing") p
      = { getJob wp p with status := "processing" } :=
    getJob_setJobStatus_self wp p "processing" hp
  simp only [processJob, finishJob, hget, ha, he]
  rfl

/-- `processJob` when synthesis and playback both succeed. -/
theorem processJob_eq_ok (wp : WorkerPool) (p : Nat)
    (synthesize : String → String → Except String (List Nat))
    (play : List Nat → Option String) (a : List Nat) (hp : p < wp.heap.length)
    (ha : synthesize (getJob wp p).text (getJob wp p).voice = Except.ok a)
    (he : play a = none) :
    processJob wp p synthesize play
      = { setJobStatus (setJobStatus wp p "processing") p "completed" with
            processed := wp.processed + 1 } := by
  have hget : getJob (setJobStatus wp p "processing") p
      = { getJob wp p with status := "processing" } :=
    getJob_setJobStatus_self wp p "processing" hp
  simp only [processJob, finishJob, hget, ha, he]
  rfl

/-- C2: for a dequeued job, `processJob` ends with status "failed" and the
gateway error text, bumping `failed` by one and never consulting the player,
when synthesis fails; with status "failed" and the playback error text,
bumping `failed` by one, when synthesis succeeds but playback fails; and with
status "completed", bumping `processed` by one, when both succeed.  In every
case exactly one of the two counters is incremented, exactly once. -/
theorem processJob_spec (wp : WorkerPool) (p : Nat)
    (synthesize : String → String → Except String (List Nat))
    (play : List Nat → Option String) (hp : p < wp.heap.length) :
    (∀ e, synthesize (getJob wp p).text (getJob wp p).voice = Except.error e →
        (getJob (processJob wp p synthesize play) p).status = "failed" ∧
        (getJob (processJob wp p synthesize play) p).error = e ∧
        (processJob wp p synthesize play).failed = wp.failed + 1 ∧
        (processJob wp p synthesize play).processed = wp.processed ∧
        ∀ play2, processJob wp p synthesize play2 = processJob wp p synthesize play) ∧
    (∀ a, synthesize (getJob wp p).text (getJob wp p).voice = Except.ok a →
        (∀ e, play a = some e →
            (getJob (processJob wp p synthesize play) p).status = "failed" ∧
            (getJob (processJob wp p synthesize play) p).error = e ∧
            (processJob wp p synthesize play).failed = wp.failed + 1 ∧
            (processJob wp p synthesize play).processed = wp.processed) ∧
        (play a = none →
            (getJob (processJob wp p synthesize play) p).status = "completed" ∧
            (processJob wp p synthesize play).processed = wp.processed + 1 ∧
            (processJob wp p synthesize play).failed = wp.failed)) ∧
    (processJob wp p synthesize play).processed + (processJob wp p synthesize play).failed
      = wp.processed + wp.failed + 1 := by
  have hp1 : p < (setJobStatus wp p "processing").heap.length := by
    rw [setJobStatus_heap_length]; exact hp
  refine ⟨?_, ?_, ?_⟩
  · intro e he
    have heq := processJob_eq_synthFail wp p synthesize play e hp he
    refine ⟨?_, ?_, ?_, ?_, ?_⟩
    · rw [heq, getJob_bumpFailed, getJob_setJob_self _ _ _ _ hp1]
    · rw [heq, getJob_bumpFailed, getJob_setJob_self _ _ _ _ hp1]
    · rw [heq]
    · rw [heq]; rfl
    · intro play2
      rw [heq, processJob_eq_synthFail wp p synthesize play2 e hp he]
  · intro a ha
    constructor
    · intro e he
      have heq := processJob_eq_playFail wp p synthesize play a e hp ha he
      refine ⟨?_, ?_, ?_, ?_⟩
      · rw [heq, getJob_bumpFailed, getJob_setJob_self _ _ _ _ hp1]
      · rw [heq, getJob_bumpFailed, getJob_setJob_self _ _ _ _ hp1]
      · rw [heq]
      · rw [heq]; rfl
    · intro hnone
      have heq := processJob_eq_ok wp p synthesize play a hp ha hnone
      refine ⟨?_, ?_, ?_⟩
      · rw [heq, getJob_bumpProcessed, getJob_setJobStatus_self _ _ _ hp1]
      · rw [heq]
      · rw [heq]; rfl
  · rcases hs : synthesize (getJob wp p).text (getJob wp p).voice with e | a
    · rw [processJob_eq_synthFail wp p synthesize play e hp hs]
      rfl
    · rcases hpl : play a with _ | e
      · rw [processJob_eq_ok wp p synthesize play a hp hs hpl]
        show (wp.processed + 1) + wp.failed = wp.processed + wp.failed + 1
        omega
      · rw [processJob_eq_playFail wp p synthesize play a e hp hs hpl]
        rfl

/-- Witness for C2 on a one-job pool with a failing synthesizer. -/
theorem processJob_spec_witness :
    (0 < (Submit (NewWorkerPool 1 1) "a" "alloy" 0).wp.heap.length) ∧
    ((getJob (processJob (Submit (NewWorkerPool 1 1) "a" "alloy" 0).wp 0
        (fun _ _ => Except.error "boom") (fun _ => none)) 0).status = "failed" ∧
      (processJob (Submit (NewWorkerPool 1 1) "a" "alloy" 0).wp 0
        (fun _ _ => Except.error "boom") (fun _ => none)).failed
        = (Submit (NewWorkerPool 1 1) "a" "alloy" 0).wp.failed + 1) :=
  ⟨by decide,
    by
      have h := processJob_spec (Submit (NewWorkerPool 1 1) "a" "alloy" 0).wp 0
        (fun _ _ => Except.error "boom") (fun _ => none) (by decide)
      have h1 := h.1 "boom" rfl
      exact ⟨h1.1, h1.2.2.1⟩⟩

/-!
### C3: the ledger is capped at 100 with FIFO eviction
-/

theorem tail_append_singleton (l : List Nat) (x : Nat) (h : l ≠ []) :
    (l ++ [x]).tail = l.tail ++ [x] := by
  cases l <;> simp_all

/-- After any sequence of submissions from a fresh pool, the heap holds one
record per call and the ledger holds exactly the pointers of the most recent
(at most 100) submissions, in submission order. -/
theorem submitAll_state (w q : Nat) (calls : List (String × String × Nat)) :
    (submitAll (NewWorkerPool w q) calls).heap.length = calls.length ∧
    (submitAll (NewWorkerPool w q) calls).jobHistory
      = (List.range calls.length).drop (calls.length - 100) := by
  induction calls using List.reverseRecOn with
  | nil => constructor <;> rfl
  | append_singleton l c ih =>
    have hstep : submitAll (NewWorkerPool w q) (l ++ [c])
        = (Submit (submitAll (NewWorkerPool w q) l) c.1 c.2.1 c.2.2).wp := by
      simp [submitAll, List.foldl_append]
    obtain ⟨ihlen, ihhist⟩ := ih
    have hlenhist : (submitAll (NewWorkerPool w q) l).jobHistory.length
        = l.length - (l.length - 100) := by
      rw [ihhist, List.length_drop, List.length_range]
    constructor
    · rw [hstep, Submit_wp_heap_length, ihlen]
      simp
    · rcases Nat.lt_or_ge l.length 100 with hsmall | hbig
      · have hh : (submitAll (NewWorkerPool w q) l).jobHistory.length < 100 := by omega
        rw [hstep, Submit_wp_jobHistory_small _ _ _ _ hh, ihhist, ihlen]
        have h0 : l.length - 100 = 0 := by omega
        have h1 : (l ++ [c]).length - 100 = 0 := by simp; omega
        rw [h0, h1, List.drop_zero, List.drop_zero]
        simp [List.range_succ]
      · have hh : 100 ≤ (submitAll (NewWorkerPool w q) l).jobHistory.length := by omega
        rw [hstep, Submit_wp_jobHistory_big _ _ _ _ hh, ihhist, ihlen]
        have hne : (List.range l.length).drop (l.length - 100) ≠ [] := by
          intro hnil
          have := congrArg List.length hnil
          rw [List.length_drop, List.length_range] at this
          simp at this
          omega
        rw [tail_append_singleton _ _ hne, List.tail_drop]
        have h1 : (l ++ [c]).length = l.length + 1 := by simp
        have h2 : l.length + 1 - 100 = (l.length - 100) + 1 := by omega
        rw [h1, h2, List.range_succ,
          List.drop_append_of_le_length (by rw [List.length_range]; omega)]

/-- C3: the ledger never holds more than 100 records, and after N submissions
it holds exactly the pointers of the min(N, 100) most recent submissions in
submission order — when an append would exceed the cap the oldest entry is
evicted first (FIFO). -/
theorem ledger_cap_spec (w q : Nat) (calls : List (String × String × Nat)) :
    (submitAll (NewWorkerPool w q) calls).jobHistory.length ≤ 100 ∧
    (submitAll (NewWorkerPool w q) calls).jobHistory
      = (List.range calls.length).drop (calls.length - 100) ∧
    (submitAll (NewWorkerPool w q) calls).jobHistory.length
      = min calls.length 100 := by
  obtain ⟨hlen, hhist⟩ := submitAll_state w q calls
  have h1 : (submitAll (NewWorkerPool w q) calls).jobHistory.length
      = calls.length - (calls.length - 100) := by
    rw [hhist, List.length_drop, List.length_range]
  exact ⟨by omega, hhist, by omega⟩

/-!
### C5: GetStatus returns the last ten ledger entries
-/

/-- C5: `GetStatus().recentJobs` holds at most 10 entries, exactly
min(10, ledger length) of them, and they are precisely the final segment of
the ledger (the most recently submitted records) in submission order. -/
theorem getStatus_recentJobs_spec (wp : WorkerPool) :
    (GetStatus wp).recentJobs.length ≤ 10 ∧
    (GetStatus wp).recentJobs.length = min 10 wp.jobHistory.length ∧
    wp.jobHistory.take (wp.jobHistory.length - 10) ++ (GetStatus wp).recentJobs
      = wp.jobHistory := by
  refine ⟨?_, ?_, ?_⟩
  · simp [GetStatus]
    omega
  · simp [GetStatus]
    omega
  · simp [GetStatus, List.take_append_drop]

/-!
### C6: the snapshot's entries alias the live records (code bug)
-/

/-- C6 is violated by worker.go's `GetStatus`: the snapshot stores the
ledger's `*Job` pointers, so a status write performed after the snapshot was
taken is visible through the already-returned snapshot entry.  Concretely:
submit one job, take the snapshot, then set the job's status to "processing"
(what a dequeuing worker does); dereferencing the snapshot's sole entry now
yields "processing" although it read "pending" when the snapshot was taken.
The repository's own test `TestWorkerPool_GetStatus_RecentJobsCopy` requires
an independent copy here. -/
theorem getStatus_snapshot_aliases_live_record :
    (GetStatus (Submit (NewWorkerPool 1 10) "Test job" "nova" 5).wp).recentJobs = [0] ∧
    (getJob (Submit (NewWorkerPool 1 10) "Test job" "nova" 5).wp
        ((GetStatus (Submit (NewWorkerPool 1 10) "Test job" "nova" 5).wp).recentJobs.getD 0 99)).status
      = "pending" ∧
    (getJob (setJobStatus (Submit (NewWorkerPool 1 10) "Test job" "nova" 5).wp 0 "processing")
        ((GetStatus (Submit (NewWorkerPool 1 10) "Test job" "nova" 5).wp).recentJobs.getD 0 99)).status
      = "processing" := by
  refine ⟨by decide, by decide, by decide⟩

/-!
### C7: Play always clears the playing flag before returning
-/

/-- C7: for every environment (temp-file failure, write failure, missing
player, unsupported platform, player exit error, or success) and every prior
player state, the `isPlaying` flag is true for the duration of the playback
attempt and false once `Play` has returned, so `IsPlaying()` called after
`Play` returns yields false. -/
theorem play_flag_spec (env : PlayEnv) (p : Player) :
    (Play env p).during.isPlaying = true ∧
    (Play env p).final.isPlaying = false ∧
    (Play env p).final.IsPlaying = false ∧
    (Play env p).err = playBody env := by
  exact ⟨rfl, rfl, rfl, rfl⟩

/-!
### C8: IsPlaying blocks on the play mutex (spec claim is false)
-/

/-- Counterexample to C8: `IsPlaying` must acquire exactly the mutex
(`Player.mu`) that `Play` holds for the whole duration of a playback, so a
call made while another goroutine is inside `Play` waits on that lock instead
of returning promptly.  The claim asserts `mustWaitFor ... = false`; the
code's lock sets make it true. -/
theorem isPlaying_blocks_on_play_lock :
    mustWaitFor isPlayingAcquiredLocks playHeldLocks = true := by
  decide

/-- C8 amended: `IsPlaying` takes the same mutex `Play` holds for the
duration of playback, hence a concurrent `IsPlaying` call blocks until the
in-progress `Play` returns; it is not a try-lock or lock-free read. -/
theorem isPlaying_lock_shape :
    isPlayingAcquiredLocks = playHeldLocks ∧
    mustWaitFor isPlayingAcquiredLocks playHeldLocks = true := by
  exact ⟨rfl, by decide⟩

/-!
### C9: job ids — collision on equal timestamps, uniqueness otherwise
-/

theorem toDigitsCore_eq (fuel : Nat) : ∀ (n : Nat) (ds : List Char), 0 < n → n ≤ fuel →
    Nat.toDigitsCore 10 fuel n ds = decDigits n ++ ds := by
  induction fuel with
  | zero => intro n ds hn hf; omega
  | succ fuel ih =>
    intro n ds hn hf
    simp only [Nat.toDigitsCore]
    by_cases h0 : n / 10 = 0
    · rw [if_pos h0]
      have hd : Nat.digits 10 n = [n % 10] := by
        rw [Nat.digits_def' (by norm_num : (1:Nat) < 10) hn, h0]
        simp
      simp [decDigits, hd]
    · rw [if_neg h0]
      have hk : 0 < n / 10 := Nat.pos_of_ne_zero h0
      have hklt : n / 10 < n := Nat.div_lt_self hn (by norm_num)
      rw [ih (n / 10) _ hk (by omega)]
      have hd : Nat.digits 10 n = n % 10 :: Nat.digits 10 (n / 10) :=
        Nat.digits_def' (by norm_num : (1:Nat) < 10) hn
      simp [decDigits, hd]

theorem toDigits_eq (n : Nat) (hn : 0 < n) : Nat.toDigits 10 n = decDigits n := by
  rw [Nat.toDigits, toDigitsCore_eq (n+1) n [] hn (by omega), List.append_nil]

theorem repr_eq_pos (n : Nat) (hn : 0 < n) : Nat.repr n = (decDigits n).asString := by
  unfold Nat.repr
  rw [toDigits_eq n hn]

theorem digitChar_inj_lt : ∀ a < 10, ∀ b < 10, Nat.digitChar a = Nat.digitChar b → a = b := by
  decide

theorem map_digitChar_inj : ∀ (l1 l2 : List Nat), (∀ x ∈ l1, x < 10) → (∀ x ∈ l2, x < 10) →
    l1.map Nat.digitChar = l2.map Nat.digitChar → l1 = l2 := by
  intro l1
  induction l1 with
  | nil => intro l2 _ _ h; cases l2 <;> simp_all
  | cons a t ih =>
    intro l2 h1 h2 h
    cases l2 with
    | nil => simp_all
    | cons b t2 =>
      simp only [List.map_cons, List.cons.injEq] at h
      have hab : a = b :=
        digitChar_inj_lt a (h1 a (by simp)) b (h2 b (by simp)) h.1
      have := ih t2 (fun x hx => h1 x (by simp [hx])) (fun x hx => h2 x (by simp [hx])) h.2
      simp [hab, this]

theorem asString_inj (l1 l2 : List Char) (h : l1.asString = l2.asString) : l1 = l2 := by
  have := congrArg String.data h
  simpa [List.asString] using this

/-- Decimal rendering of naturals is injective. -/
theorem Nat_repr_injective : Function.Injective Nat.repr := by
  intro a b h
  have entries : ∀ m : Nat, ∀ x ∈ Nat.digits 10 m, x < 10 := by
    intro m x hx
    exact Nat.digits_lt_base (by norm_num) hx
  rcases Nat.eq_zero_or_pos a with ha | ha <;> rcases Nat.eq_zero_or_pos b with hb | hb
  · omega
  · exfalso
    subst ha
    rw [repr_eq_pos b hb] at h
    have h0 : Nat.repr 0 = (['0'] : List Char).asString := rfl
    rw [h0] at h
    have := asString_inj _ _ h
    have hrev := congrArg List.reverse this
    simp only [decDigits, List.reverse_reverse] at hrev
    have hd : Nat.digits 10 b = [0] := by
      apply map_digitChar_inj _ _ (entries b) (by intro x hx; simp at hx; omega)
      rw [← hrev]
      decide
    have := Nat.ofDigits_digits 10 b
    rw [hd] at this
    simp [Nat.ofDigits] at this
    omega
  · exfalso
    subst hb
    rw [repr_eq_pos a ha] at h
    have h0 : Nat.repr 0 = (['0'] : List Char).asString := rfl
    rw [h0] at h
    have := asString_inj _ _ h.symm
    have hrev := congrArg List.reverse this
    simp only [decDigits, List.reverse_reverse] at hrev
    have hd : Nat.digits 10 a = [0] := by
      apply map_digitChar_inj _ _ (entries a) (by intro x hx; simp at hx; omega)
      rw [← hrev]
      decide
    have := Nat.ofDigits_digits 10 a
    rw [hd] at this
    simp [Nat.ofDigits] at this
    omega
  · rw [repr_eq_pos a ha, repr_eq_pos b hb] at h
    have := asString_inj _ _ h
    have hrev := congrArg List.reverse this
    simp only [decDigits, List.reverse_reverse] at hrev
    have hd := map_digitChar_inj _ _ (entries a) (entries b) hrev
    have h1 := Nat.ofDigits_digits 10 a
    have h2 := Nat.ofDigits_digits 10 b
    rw [hd] at h1
    omega

/-- `jobIdOf` is injective: distinct UnixNano timestamps give distinct ids. -/
theorem jobIdOf_inj (a b : Nat) (h : jobIdOf a = jobIdOf b) : a = b := by
  apply Nat_repr_injective
  have hd := congrArg String.data h
  simp only [jobIdOf, String.data_append] at hd
  have := List.append_cancel_left hd
  exact String.ext this

/-- Status and error writes never change a record's id. -/
theorem getJob_setJob_id (wp : WorkerPool) (q p : Nat) (st er : String) :
    (getJob (setJob wp q st er) p).id = (getJob wp p).id := by
  by_cases h : q = p
  · subst h
    by_cases hq : q < wp.heap.length
    · rw [getJob_setJob_self _ _ _ _ hq]
    · unfold setJob
      rw [List.set_eq_of_length_le (by omega)]
  · rw [getJob_setJob_ne _ _ _ _ _ h]

theorem getJob_setJobStatus_id (wp : WorkerPool) (q p : Nat) (st : String) :
    (getJob (setJobStatus wp q st) p).id = (getJob wp p).id := by
  by_cases h : q = p
  · subst h
    by_cases hq : q < wp.heap.length
    · rw [getJob_setJobStatus_self _ _ _ hq]
    · unfold setJobStatus
      rw [List.set_eq_of_length_le (by omega)]
  · rw [getJob_setJobStatus_ne _ _ _ _ h]

/-- `Submit` leaves every previously allocated record unchanged. -/
theorem Submit_preserves_getJob (wp : WorkerPool) (text voice : String) (now : Nat)
    (p : Nat) (hp : p < wp.heap.length) :
    getJob (Submit wp text voice now).wp p = getJob wp p := by
  simp only [Submit]
  split
  · simp [getJob, List.getD_eq_getElem?_getD, List.getElem?_append, hp]
  · rw [getJob_setJob_ne _ _ _ _ _ (by omega)]
    simp [getJob, List.getD_eq_getElem?_getD, List.getElem?_append, hp]

/-- `finishJob` never changes a record's id. -/
theorem getJob_finishJob_id (wp : WorkerPool) (q p : Nat)
    (synthesize : String → String → Except String (List Nat))
    (play : List Nat → Option String) :
    (getJob (finishJob wp q synthesize play) p).id = (getJob wp p).id := by
  unfold finishJob
  rcases hs : synthesize (getJob wp q).text (getJob wp q).voice with e | a
  · simp only [hs, getJob_bumpFailed]
    exact getJob_setJob_id wp q p "failed" e
  · rcases hpl : play a with _ | e
    · simp only [hs, hpl, getJob_bumpProcessed]
      exact getJob_setJobStatus_id wp q p "completed"
    · simp only [hs, hpl, getJob_bumpFailed]
      exact getJob_setJob_id wp q p "failed" e

/-- A record allocated before a step keeps its id across the step. -/
theorem step_preserves_id (wp wp2 : WorkerPool) (h : Step wp wp2) (p : Nat)
    (hp : p < wp.heap.length) : (getJob wp2 p).id = (getJob wp p).id := by
  cases h with
  | submit text voice now =>
    rw [Submit_preserves_getJob wp text voice now p hp]
  | dequeue q rest hq =>
    exact getJob_setJobStatus_id wp q p "processing"
  | finish q synthesize play hq =>
    exact getJob_finishJob_id wp q p synthesize play

/-- Counterexample to C9: two `Submit` calls whose `UnixNano` timestamps
coincide create two distinct records with the same id "job-42". -/
theorem job_id_collision :
    (Submit (NewWorkerPool 2 10) "a" "alloy" 42).jobPtr
      ≠ (Submit ((Submit (NewWorkerPool 2 10) "a" "alloy" 42).wp) "b" "echo" 42).jobPtr ∧
    (getJob (Submit ((Submit (NewWorkerPool 2 10) "a" "alloy" 42).wp) "b" "echo" 42).wp
        (Submit (NewWorkerPool 2 10) "a" "alloy" 42).jobPtr).id
      = (getJob (Submit ((Submit (NewWorkerPool 2 10) "a" "alloy" 42).wp) "b" "echo" 42).wp
          (Submit ((Submit (NewWorkerPool 2 10) "a" "alloy" 42).wp) "b" "echo" 42).jobPtr).id := by
  refine ⟨by decide, by decide⟩

/-- C9 amended: a submitted record's id is "job-" ++ decimal UnixNano
timestamp; two `Submit` calls get distinct ids whenever their timestamps
differ (the clock value is the only distinguisher); and no later step of the
system ever modifies the id of an existing record. -/
theorem job_id_spec :
    (∀ (wp : WorkerPool) (text voice : String) (now : Nat),
        (getJob (Submit wp text voice now).wp (Submit wp text voice now).jobPtr).id
          = jobIdOf now) ∧
    (∀ a b : Nat, a ≠ b → jobIdOf a ≠ jobIdOf b) ∧
    (∀ wp wp2 : WorkerPool, Step wp wp2 → ∀ p, p < wp.heap.length →
        (getJob wp2 p).id = (getJob wp p).id) := by
  refine ⟨?_, ?_, ?_⟩
  · intro wp text voice now
    rw [Submit_jobPtr]
    simp only [Submit]
    split
    · simp [getJob, List.getD_eq_getElem?_getD]
    · rw [getJob_setJob_id]
      simp [getJob, List.getD_eq_getElem?_getD]
  · intro a b hne h
    exact hne (jobIdOf_inj a b h)
  · exact step_preserves_id

/-- Witness for the amended C9 at concrete timestamps 0 and 1. -/
theorem job_id_spec_witness :
    (getJob (Submit (NewWorkerPool 1 1) "a" "alloy" 3).wp
        (Submit (NewWorkerPool 1 1) "a" "alloy" 3).jobPtr).id = jobIdOf 3 ∧
    jobIdOf 0 ≠ jobIdOf 1 :=
  ⟨job_id_spec.1 (NewWorkerPool 1 1) "a" "alloy" 3,
    job_id_spec.2.1 0 1 (by decide)⟩

/-!
### C10: handleSpeak argument validation
-/

/-- C10: `handleSpeak` rejects a missing, non-string or empty `text` argument
and a `text` of more than 4096 bytes with an error result, leaving the pool
(ledger and queue) untouched; it rejects an invalid voice string the same
way; a voice argument of non-string JSON type is treated as absent and
defaults to "alloy", with the job submitted; and a text of exactly 4096 bytes
with a valid voice is accepted and submitted. -/
theorem handleSpeak_spec (wp : WorkerPool) (args : List (String × JsonValue)) (now : Nat) :
    ((asString (lookupArg args "text") = none ∨ asString (lookupArg args "text") = some "") →
        handleSpeak wp args now = (ToolResult.error "text parameter is required", wp)) ∧
    (∀ t, asString (lookupArg args "text") = some t → t ≠ "" → t.utf8ByteSize > 4096 →
        handleSpeak wp args now
          = (ToolResult.error "text exceeds maximum length of 4096 characters", wp)) ∧
    (∀ t v, asString (lookupArg args "text") = some t → t ≠ "" → t.utf8ByteSize ≤ 4096 →
        asString (lookupArg args "voice") = some v → v ≠ "" → IsValidVoice v = false →
        handleSpeak wp args now
          = (ToolResult.error ("invalid voice '" ++ v ++
              "'. Valid voices: alloy, echo, fable, onyx, nova, shimmer"), wp)) ∧
    (∀ t, asString (lookupArg args "text") = some t → t ≠ "" → t.utf8ByteSize ≤ 4096 →
        asString (lookupArg args "voice") = none →
        (handleSpeak wp args now).2 = (Submit wp t "alloy" now).wp ∧
        (handleSpeak wp args now).2.heap.length = wp.heap.length + 1) ∧
    (∀ t v, asString (lookupArg args "text") = some t → t.utf8ByteSize = 4096 →
        asString (lookupArg args "voice") = some v → IsValidVoice v = true →
        (handleSpeak wp args now).2 = (Submit wp t v now).wp ∧
        (handleSpeak wp args now).2.heap.length = wp.heap.length + 1) := by
  refine ⟨?_, ?_, ?_, ?_, ?_⟩
  · rintro (h | h) <;> simp [handleSpeak, h]
  · intro t ht hne hbig
    simp only [handleSpeak, ht]
    rw [if_neg hne, if_pos hbig]
  · intro t v ht hne hsize hv hvne hbad
    simp only [handleSpeak, ht, hv]
    rw [if_neg hne, if_neg (by omega), if_pos hvne, if_pos (by simp [hbad])]
  · intro t ht hne hsize hv
    simp only [handleSpeak, ht, hv]
    rw [if_neg hne, if_neg (by omega), if_neg (by simp [IsValidVoice, ValidVoices])]
    rcases herr : (Submit wp t "alloy" now).err with _ | e <;>
      simp [herr, Submit_wp_heap_length]
  · intro t v ht hsize hv hok
    have hne : t ≠ "" := by
      intro h
      rw [h] at hsize
      simp [String.utf8ByteSize] at hsize
    have hvne : v ≠ "" := by
      intro h
      rw [h] at hok
      simp [IsValidVoice, ValidVoices] at hok
    simp only [handleSpeak, ht, hv]
    rw [if_neg hne, if_neg (by omega), if_pos hvne, if_neg (by simp [hok])]
    rcases herr : (Submit wp t v now).err with _ | e <;>
      simp [herr, Submit_wp_heap_length]

/-- Witness for C10: a well-formed text with an invalid voice is rejected and
the pool left unchanged. -/
theorem handleSpeak_spec_witness :
    handleSpeak (NewWorkerPool 1 1) [("text", JsonValue.str "hi"),
        ("voice", JsonValue.str "bad")] 0
      = (ToolResult.error
          "invalid voice 'bad'. Valid voices: alloy, echo, fable, onyx, nova, shimmer",
        NewWorkerPool 1 1) := by
  have h := (handleSpeak_spec (NewWorkerPool 1 1)
    [("text", JsonValue.str "hi"), ("voice", JsonValue.str "bad")] 0).2.2.1
    "hi" "bad" (by decide) (by decide) (by decide) (by decide) (by decide) (by decide)
  exact h

/-!
### C4: the job status lifecycle — component lemmas
-/

theorem Submit_wp_jobs (wp : WorkerPool) (text voice : String) (now : Nat) :
    (Submit wp text voice now).wp.jobs
      = if wp.jobs.length < wp.queueSize then wp.jobs ++ [wp.heap.length] else wp.jobs := by
  simp only [Submit]
  split <;> simp_all [setJob]

theorem Submit_wp_inFlight (wp : WorkerPool) (text voice : String) (now : Nat) :
    (Submit wp text voice now).wp.inFlight = wp.inFlight := by
  simp only [Submit]
  split <;> simp [setJob]

/-- The record `Submit` allocates, as read back through its pointer. -/
theorem Submit_getJob_new (wp : WorkerPool) (text voice : String) (now : Nat) :
    getJob (Submit wp text voice now).wp wp.heap.length
      = if wp.jobs.length < wp.queueSize
        then { id := jobIdOf now, text := text, voice := voice, createdAt := now
               status := "pending", error := "" }
        else { id := jobIdOf now, text := text, voice := voice, createdAt := now
               status := "failed", error := "queue is full" } := by
  simp only [Submit]
  split
  · simp_all [getJob, List.getD_eq_getElem?_getD]
  · rw [getJob_setJob_self _ _ _ _ (by simp)]
    simp_all [getJob, List.getD_eq_getElem?_getD]

theorem finishJob_heap_length (wp : WorkerPool) (q : Nat)
    (synthesize : String → String → Except String (List Nat))
    (play : List Nat → Option String) :
    (finishJob wp q synthesize play).heap.length = wp.heap.length := by
  unfold finishJob
  rcases hs : synthesize (getJob wp q).text (getJob wp q).voice with e | a
  · simp [hs, setJob]
  · rcases hpl : play a with _ | e <;> simp [hs, hpl, setJob, setJobStatus]

theorem finishJob_jobs (wp : WorkerPool) (q : Nat)
    (synthesize : String → String → Except String (List Nat))
    (play : List Nat → Option String) :
    (finishJob wp q synthesize play).jobs = wp.jobs := by
  unfold finishJob
  rcases hs : synthesize (getJob wp q).text (getJob wp q).voice with e | a
  · simp [hs, setJob]
  · rcases hpl : play a with _ | e <;> simp [hs, hpl, setJob, setJobStatus]

theorem getJob_finishJob_ne (wp : WorkerPool) (q p : Nat)
    (synthesize : String → String → Except String (List Nat))
    (play : List Nat → Option String) (hne : q ≠ p) :
    getJob (finishJob wp q synthesize play) p = getJob wp p := by
  unfold finishJob
  rcases hs : synthesize (getJob wp q).text (getJob wp q).voice with e | a
  · simp only [hs, getJob_bumpFailed]
    exact getJob_setJob_ne wp q p _ _ hne
  · rcases hpl : play a with _ | e
    · simp only [hs, hpl, getJob_bumpProcessed]
      exact getJob_setJobStatus_ne wp q p _ hne
    · simp only [hs, hpl, getJob_bumpFailed]
      exact getJob_setJob_ne wp q p _ _ hne

theorem getJob_finishJob_self (wp : WorkerPool) (q : Nat)
    (synthesize : String → String → Except String (List Nat))
    (play : List Nat → Option String) (hq : q < wp.heap.length) :
    (getJob (finishJob wp q synthesize play) q).status = "completed" ∨
    (getJob (finishJob wp q synthesize play) q).status = "failed" := by
  unfold finishJob
  rcases hs : synthesize (getJob wp q).text (getJob wp q).voice with e | a
  · right
    simp only [hs, getJob_bumpFailed]
    rw [getJob_setJob_self _ _ _ _ hq]
  · rcases hpl : play a with _ | e
    · left
      simp only [hs, hpl, getJob_bumpProcessed]
      rw [getJob_setJobStatus_self _ _ _ hq]
    · right
      simp only [hs, hpl, getJob_bumpFailed]
      rw [getJob_setJob_self _ _ _ _ hq]

theorem dequeueStep_jobs (wp : WorkerPool) (q : Nat) (rest : List Nat) :
    (dequeueStep wp q rest).jobs = rest := rfl

theorem dequeueStep_inFlight (wp : WorkerPool) (q : Nat) (rest : List Nat) :
    (dequeueStep wp q rest).inFlight = wp.inFlight ++ [q] := rfl

theorem dequeueStep_heap_length (wp : WorkerPool) (q : Nat) (rest : List Nat) :
    (dequeueStep wp q rest).heap.length = wp.heap.length := by
  show (setJobStatus wp q "processing").heap.length = wp.heap.length
  exact setJobStatus_heap_length wp q "processing"

theorem getJob_dequeueStep (wp : WorkerPool) (q : Nat) (rest : List Nat) (p : Nat) :
    getJob (dequeueStep wp q rest) p = getJob (setJobStatus wp q "processing") p := rfl

theorem finishStep_jobs (wp : WorkerPool) (q : Nat)
    (synthesize : String → String → Except String (List Nat))
    (play : List Nat → Option String) :
    (finishStep wp q synthesize play).jobs = wp.jobs := by
  show (finishJob wp q synthesize play).jobs = wp.jobs
  exact finishJob_jobs wp q synthesize play

theorem finishStep_inFlight (wp : WorkerPool) (q : Nat)
    (synthesize : String → String → Except String (List Nat))
    (play : List Nat → Option String) :
    (finishStep wp q synthesize play).inFlight = wp.inFlight.erase q := rfl

theorem finishStep_heap_length (wp : WorkerPool) (q : Nat)
    (synthesize : String → String → Except String (List Nat))
    (play : List Nat → Option String) :
    (finishStep wp q synthesize play).heap.length = wp.heap.length := by
  show (finishJob wp q synthesize play).heap.length = wp.heap.length
  exact finishJob_heap_length wp q synthesize play

theorem getJob_finishStep (wp : WorkerPool) (q : Nat)
    (synthesize : String → String → Except String (List Nat))
    (play : List Nat → Option String) (p : Nat) :
    getJob (finishStep wp q synthesize play) p = getJob (finishJob wp q synthesize play) p := rfl

/-- The structural invariant holds in a freshly constructed pool. -/
theorem WF_NewWorkerPool (w q : Nat) : WF (NewWorkerPool w q) := by
  refine ⟨?_, ?_, ?_, ?_⟩ <;> simp [NewWorkerPool, WF]

/-- Every step of the system preserves the structural invariant. -/
theorem step_preserves_WF (wp wp2 : WorkerPool) (h : Step wp wp2) (hwf : WF wp) : WF wp2 := by
  obtain ⟨hjobs, hflight, hnd, hval⟩ := hwf
  cases h with
  | submit text voice now =>
    have hjobs2 := Submit_wp_jobs wp text voice now
    have hinf := Submit_wp_inFlight wp text voice now
    have hlen := Submit_wp_heap_length wp text voice now
    have hnew := Submit_getJob_new wp text voice now
    refine ⟨?_, ?_, ?_, ?_⟩
    · intro p hp
      rw [hjobs2] at hp
      by_cases hc : wp.jobs.length < wp.queueSize
      · rw [if_pos hc] at hp
        rcases List.mem_append.mp hp with hin | hnewp
        · obtain ⟨h1, h2⟩ := hjobs p hin
          refine ⟨by omega, ?_⟩
          rw [Submit_preserves_getJob wp text voice now p h1]
          exact h2
        · simp only [List.mem_singleton] at hnewp
          subst hnewp
          refine ⟨by omega, ?_⟩
          rw [hnew, if_pos hc]
      · rw [if_neg hc] at hp
        obtain ⟨h1, h2⟩ := hjobs p hp
        refine ⟨by omega, ?_⟩
        rw [Submit_preserves_getJob wp text voice now p h1]
        exact h2
    · intro p hp
      rw [hinf] at hp
      obtain ⟨h1, h2⟩ := hflight p hp
      refine ⟨by omega, ?_⟩
      rw [Submit_preserves_getJob wp text voice now p h1]
      exact h2
    · rw [hjobs2, hinf]
      by_cases hc : wp.jobs.length < wp.queueSize
      · rw [if_pos hc]
        have hfresh : wp.heap.length ∉ wp.jobs ++ wp.inFlight := by
          intro hmem
          rcases List.mem_append.mp hmem with h1 | h1
          · have := (hjobs _ h1).1; omega
          · have := (hflight _ h1).1; omega
        have hperm : ((wp.jobs ++ [wp.heap.length]) ++ wp.inFlight).Perm
            (wp.heap.length :: (wp.jobs ++ wp.inFlight)) := by
          rw [List.append_assoc]
          exact List.perm_middle
        exact hperm.symm.nodup (List.nodup_cons.mpr ⟨hfresh, hnd⟩)
      · rw [if_neg hc]
        exact hnd
    · intro p hp
      rw [hlen] at hp
      by_cases hple : p < wp.heap.length
      · rw [Submit_preserves_getJob wp text voice now p hple]
        exact hval p hple
      · have heq : p = wp.heap.length := by omega
        subst heq
        rw [hnew]
        by_cases hc : wp.jobs.length < wp.queueSize
        · rw [if_pos hc]; simp [validStatuses]
        · rw [if_neg hc]; simp [validStatuses]
  | dequeue q rest hq =>
    have hqmem : q ∈ wp.jobs := by rw [hq]; simp
    obtain ⟨hqlt, hqpend⟩ := hjobs q hqmem
    have hnd2 : (q :: (rest ++ wp.inFlight)).Nodup := by
      have heq : wp.jobs ++ wp.inFlight = q :: (rest ++ wp.inFlight) := by rw [hq]; rfl
      rwa [heq] at hnd
    have hqnotin : q ∉ rest ++ wp.inFlight := (List.nodup_cons.mp hnd2).1
    refine ⟨?_, ?_, ?_, ?_⟩
    · intro p hp
      rw [dequeueStep_jobs] at hp
      have hpmem : p ∈ wp.jobs := by rw [hq]; exact List.mem_cons_of_mem q hp
      obtain ⟨h1, h2⟩ := hjobs p hpmem
      have hpq : q ≠ p := by
        intro hh
        subst hh
        exact hqnotin (List.mem_append_left _ hp)
      rw [dequeueStep_heap_length, getJob_dequeueStep,
        getJob_setJobStatus_ne wp q p _ hpq]
      exact ⟨h1, h2⟩
    · intro p hp
      rw [dequeueStep_inFlight] at hp
      rw [dequeueStep_heap_length, getJob_dequeueStep]
      rcases List.mem_append.mp hp with h1 | h1
      · obtain ⟨ha, hb⟩ := hflight p h1
        have hpq : q ≠ p := by
          intro hh
          subst hh
          exact hqnotin (List.mem_append_right _ h1)
        rw [getJob_setJobStatus_ne wp q p _ hpq]
        exact ⟨ha, hb⟩
      · simp only [List.mem_singleton] at h1
        subst h1
        refine ⟨hqlt, ?_⟩
        rw [getJob_setJobStatus_self wp p _ hqlt]
    · rw [dequeueStep_jobs, dequeueStep_inFlight]
      have hperm : (rest ++ (wp.inFlight ++ [q])).Perm (q :: (rest ++ wp.inFlight)) := by
        rw [← List.append_assoc]
        exact List.perm_append_singleton q (rest ++ wp.inFlight)
      exact hperm.symm.nodup hnd2
    · intro p hp
      rw [dequeueStep_heap_length] at hp
      rw [getJob_dequeueStep]
      by_cases hpq : q = p
      · subst hpq
        rw [getJob_setJobStatus_self wp q _ hqlt]
        simp [validStatuses]
      · rw [getJob_setJobStatus_ne wp q p _ hpq]
        exact hval p hp
  | finish q synthesize play hqmem =>
    have hdisj := List.disjoint_of_nodup_append hnd
    have hinfnd : wp.inFlight.Nodup := hnd.of_append_right
    obtain ⟨hqlt, hqproc⟩ := hflight q hqmem
    refine ⟨?_, ?_, ?_, ?_⟩
    · intro p hp
      rw [finishStep_jobs] at hp
      obtain ⟨h1, h2⟩ := hjobs p hp
      have hpq : q ≠ p := by
        intro hh
        subst hh
        exact hdisj hp hqmem
      rw [finishStep_heap_length, getJob_finishStep,
        getJob_finishJob_ne wp q p synthesize play hpq]
      exact ⟨h1, h2⟩
    · intro p hp
      rw [finishStep_inFlight] at hp
      have hmem := (hinfnd.mem_erase_iff.mp hp)
      obtain ⟨h1, h2⟩ := hflight p hmem.2
      rw [finishStep_heap_length, getJob_finishStep,
        getJob_finishJob_ne wp q p synthesize play (fun hh => hmem.1 hh.symm)]
      exact ⟨h1, h2⟩
    · rw [finishStep_jobs, finishStep_inFlight]
      exact ((List.erase_sublist q wp.inFlight).append_left wp.jobs).nodup hnd
    · intro p hp
      rw [finishStep_heap_length] at hp
      rw [getJob_finishStep]
      by_cases hpq : q = p
      · subst hpq
        rcases getJob_finishJob_self wp q synthesize play hqlt with hc | hc <;>
          rw [hc] <;> simp [validStatuses]
      · rw [getJob_finishJob_ne wp q p synthesize play hpq]
        exact hval p hp

/-- Single-step edge conformance: on every step, an existing record's status
either stays put or moves along a legal edge, and a newly allocated record
enters with status "pending" or (queue full) "failed". -/
theorem step_status_edges (wp wp2 : WorkerPool) (h : Step wp wp2) (hwf : WF wp) :
    (∀ p, p < wp.heap.length →
        (getJob wp2 p).status = (getJob wp p).status ∨
        StatusEdge (getJob wp p).status (getJob wp2 p).status) ∧
    (∀ p, wp.heap.length ≤ p → p < wp2.heap.length →
        (getJob wp2 p).status = "pending" ∨ (getJob wp2 p).status = "failed") := by
  obtain ⟨hjobs, hflight, hnd, hval⟩ := hwf
  cases h with
  | submit text voice now =>
    constructor
    · intro p hp
      left
      rw [Submit_preserves_getJob wp text voice now p hp]
    · intro p hge hlt
      rw [Submit_wp_heap_length] at hlt
      have heq : p = wp.heap.length := by omega
      subst heq
      rw [Submit_getJob_new]
      by_cases hc : wp.jobs.length < wp.queueSize
      · rw [if_pos hc]; left; rfl
      · rw [if_neg hc]; right; rfl
  | dequeue q rest hq =>
    have hqmem : q ∈ wp.jobs := by rw [hq]; simp
    obtain ⟨hqlt, hqpend⟩ := hjobs q hqmem
    constructor
    · intro p hp
      rw [getJob_dequeueStep]
      by_cases hpq : q = p
      · subst hpq
        right
        rw [getJob_setJobStatus_self wp q _ hqlt, hqpend]
        left
        exact ⟨rfl, rfl⟩
      · left
        rw [getJob_setJobStatus_ne wp q p _ hpq]
    · intro p hge hlt
      rw [dequeueStep_heap_length] at hlt
      omega
  | finish q synthesize play hqmem =>
    obtain ⟨hqlt, hqproc⟩ := hflight q hqmem
    constructor
    · intro p hp
      rw [getJob_finishStep]
      by_cases hpq : q = p
      · subst hpq
        right
        rw [hqproc]
        rcases getJob_finishJob_self wp q synthesize play hqlt with hc | hc <;> rw [hc]
        · right; left; exact ⟨rfl, rfl⟩
        · right; right; left; exact ⟨rfl, rfl⟩
      · left
        rw [getJob_finishJob_ne wp q p synthesize play hpq]
    · intro p hge hlt
      rw [finishStep_heap_length] at hlt
      omega

/-- Single-step frame property for terminal records: once a record is
"completed" or "failed", no step changes the record at all. -/
theorem step_preserves_terminal (wp wp2 : WorkerPool) (h : Step wp wp2) (hwf : WF wp)
    (p : Nat) (hp : p < wp.heap.length)
    (hterm : isTerminal (getJob wp p).status = true) :
    getJob wp2 p = getJob wp p := by
  obtain ⟨hjobs, hflight, hnd, hval⟩ := hwf
  cases h with
  | submit text voice now =>
    exact Submit_preserves_getJob wp text voice now p hp
  | dequeue q rest hq =>
    have hqmem : q ∈ wp.jobs := by rw [hq]; simp
    obtain ⟨hqlt, hqpend⟩ := hjobs q hqmem
    have hpq : q ≠ p := by
      intro hh
      subst hh
      rw [hqpend] at hterm
      simp [isTerminal] at hterm
    rw [getJob_dequeueStep, getJob_setJobStatus_ne wp q p _ hpq]
  | finish q synthesize play hqmem =>
    obtain ⟨hqlt, hqproc⟩ := hflight q hqmem
    have hpq : q ≠ p := by
      intro hh
      subst hh
      rw [hqproc] at hterm
      simp [isTerminal] at hterm
    rw [getJob_finishStep, getJob_finishJob_ne wp q p synthesize play hpq]

/-- Steps never shrink the heap. -/
theorem step_heap_le (wp wp2 : WorkerPool) (h : Step wp wp2) :
    wp.heap.length ≤ wp2.heap.length := by
  cases h with
  | submit text voice now => rw [Submit_wp_heap_length]; omega
  | dequeue q rest hq => rw [dequeueStep_heap_length]
  | finish q synthesize play hq => rw [finishStep_heap_length]

/-- The invariant is preserved along any execution. -/
theorem rtg_preserves_WF (wp wp2 : WorkerPool)
    (h : Relation.ReflTransGen Step wp wp2) (hwf : WF wp) : WF wp2 := by
  induction h with
  | refl => exact hwf
  | tail hsteps hstep ih => exact step_preserves_WF _ _ hstep ih

/-- The heap never shrinks along any execution. -/
theorem rtg_heap_le (wp wp2 : WorkerPool)
    (h : Relation.ReflTransGen Step wp wp2) :
    wp.heap.length ≤ wp2.heap.length := by
  induction h with
  | refl => omega
  | tail hsteps hstep ih => exact le_trans ih (step_heap_le _ _ hstep)

/-- Frame property along executions: a terminal record never changes again. -/
theorem rtg_terminal_frozen (wp wp2 : WorkerPool)
    (h : Relation.ReflTransGen Step wp wp2) (hwf : WF wp) (p : Nat)
    (hp : p < wp.heap.length)
    (hterm : isTerminal (getJob wp p).status = true) :
    getJob wp2 p = getJob wp p := by
  induction h with
  | refl => rfl
  | tail hsteps hstep ih =>
    rename_i mid fin
    have hwfmid := rtg_preserves_WF _ _ hsteps hwf
    have hlen : p < mid.heap.length := lt_of_lt_of_le hp (rtg_heap_le _ _ hsteps)
    have hrec := step_preserves_terminal mid fin hstep hwfmid p hlen (by rw [ih]; exact hterm)
    rw [hrec, ih]

/-- Pools reachable from a fresh pool satisfy the structural invariant. -/
theorem reachable_WF (w q : Nat) (wp : WorkerPool) (h : Reachable w q wp) : WF wp :=
  rtg_preserves_WF _ _ h (WF_NewWorkerPool w q)

/-- C4: in every reachable state, every record's status is one of pending,
processing, completed, failed; each step moves an existing record's status
only along the legal edges (pending→processing on dequeue,
processing→completed and processing→failed after the synthesis+playback
attempt), a record created by a step enters as "pending" or — queue full —
"failed"; and once a record is "completed" or "failed", no later sequence of
steps ever changes its status again. -/
theorem job_status_lifecycle (w q : Nat) (wp : WorkerPool) (hreach : Reachable w q wp) :
    (∀ p, p < wp.heap.length → (getJob wp p).status ∈ validStatuses) ∧
    (∀ wp2, Step wp wp2 →
        (∀ p, p < wp.heap.length →
            (getJob wp2 p).status = (getJob wp p).status ∨
            StatusEdge (getJob wp p).status (getJob wp2 p).status) ∧
        (∀ p, wp.heap.length ≤ p → p < wp2.heap.length →
            (getJob wp2 p).status = "pending" ∨ (getJob wp2 p).status = "failed")) ∧
    (∀ wp2, Relation.ReflTransGen Step wp wp2 → ∀ p, p < wp.heap.length →
        isTerminal (getJob wp p).status = true →
        (getJob wp2 p).status = (getJob wp p).status) := by
  have hwf := reachable_WF w q wp hreach
  refine ⟨hwf.2.2.2, ?_, ?_⟩
  · intro wp2 hstep
    exact step_status_edges wp wp2 hstep hwf
  · intro wp2 hrtg p hp hterm
    rw [rtg_terminal_frozen wp wp2 hrtg hwf p hp hterm]

/-- Witness for C4: after one submission from a fresh pool, the sole record's
status is a valid status, a dequeue step moves it along a legal edge, and its
(non-terminal) evolution is consistent with the lifecycle. -/
theorem job_status_lifecycle_witness :
    (getJob (Submit (NewWorkerPool 1 1) "a" "alloy" 0).wp 0).status ∈ validStatuses ∧
    ((getJob (dequeueStep (Submit (NewWorkerPool 1 1) "a" "alloy" 0).wp 0 []) 0).status
        = (getJob (Submit (NewWorkerPool 1 1) "a" "alloy" 0).wp 0).status ∨
      StatusEdge (getJob (Submit (NewWorkerPool 1 1) "a" "alloy" 0).wp 0).status
        ((getJob (dequeueStep (Submit (NewWorkerPool 1 1) "a" "alloy" 0).wp 0 []) 0).status)) := by
  have hreach : Reachable 1 1 (Submit (NewWorkerPool 1 1) "a" "alloy" 0).wp :=
    Relation.ReflTransGen.single (Step.submit (NewWorkerPool 1 1) "a" "alloy" 0)
  have h := job_status_lifecycle 1 1 (Submit (NewWorkerPool 1 1) "a" "alloy" 0).wp hreach
  refine ⟨h.1 0 (by decide), ?_⟩
  have hstep : Step (Submit (NewWorkerPool 1 1) "a" "alloy" 0).wp
      (dequeueStep (Submit (NewWorkerPool 1 1) "a" "alloy" 0).wp 0 []) :=
    Step.dequeue _ 0 [] (by decide)
  exact (h.2.1 _ hstep).1 0 (by decide)
